import Mathlib

/-!
Formal model of the streaming ingestion and aggregation pipeline and of the
analytics engine of the Quant-Developer-Assignment repository, together with
proofs settling the frozen claims about it.

Conventions of the shallow embedding:
* prices, sizes and statistical values are rationals (`ℚ`); none of the
  claims at issue depends on binary floating-point rounding;
* timestamps are natural numbers (seconds since the epoch);
* a missing value (pandas `NaN`) is `Option.none`;
* a Python exception is an `Except`/`Option` result, and a `try/except`
  block is a `match` on that result;
* a DataFrame is a list of typed rows, kept in row order.
-/

/-! ## Common row types and sorting

`pandas.sort_values` / a `DatetimeIndex` order rows chronologically; ties
keep their original relative order.  We model this with the stable
`List.insertionSort` on the timestamp key. -/

/-- A normalized trade tick: `{symbol, timestamp, price, size}`
(`data_collector.py`, `normalize`).  The timestamp is an instant in
seconds (`datetime.fromtimestamp(ms / 1000)` can be fractional). -/
structure Tick where
  symbol : String
  ts : ℚ
  price : ℚ
  size : ℚ
  deriving DecidableEq, Repr

/-- One row of the tick DataFrame handed to `resample_data`: columns
`timestamp` (an integral number of milliseconds since the epoch, the
resolution of the upstream feed), `price` and `size`. -/
structure TickRow where
  ts : Nat
  price : ℚ
  size : ℚ
  deriving DecidableEq, Repr

/-- One row of a price DataFrame as consumed by `compute_spread`
(columns `timestamp` and the price column). -/
structure PriceRow where
  ts : Nat
  price : ℚ
  deriving DecidableEq, Repr

instance (key : α → Nat) : DecidableRel (fun a b => key a ≤ key b) :=
  fun _ _ => Nat.decLe _ _

instance (key : α → Nat) : IsTotal α (fun a b => key a ≤ key b) :=
  ⟨fun a b => Nat.le_total (key a) (key b)⟩

instance (key : α → Nat) : IsTrans α (fun a b => key a ≤ key b) :=
  ⟨fun _ _ _ => Nat.le_trans⟩

/-- Stable sort of a row list by a natural-number key (model of
`sort_values('timestamp')` and of chronological `DatetimeIndex` order). -/
def sortOn (key : α → Nat) (l : List α) : List α :=
  List.insertionSort (fun a b => key a ≤ key b) l

/-! ## Reconnect backoff (`data_collector.py`, `BinanceCollector.connect_symbol`)

Per symbol, `reconnect_delays[symbol]` starts at `INITIAL_RECONNECT_DELAY`,
is reset to it on a successful connection (line 93), and after each failed
wait is doubled and capped at `MAX_RECONNECT_DELAY` (lines 109-115). -/

def INITIAL_RECONNECT_DELAY : Nat := 1

def MAX_RECONNECT_DELAY : Nat := 60

/-- Events observed by one symbol's connection loop: the wait after a
connection failure or close, or a successful (re)connection. -/
inductive ConnEvent where
  | fail
  | success
  deriving DecidableEq, Repr

/-- One update of `reconnect_delays[symbol]`: after a failed attempt the
delay doubles, capped at 60; on entering the connected state it resets
to 1. -/
def reconnectStep (d : Nat) : ConnEvent → Nat
  | ConnEvent.fail => min (d * 2) MAX_RECONNECT_DELAY
  | ConnEvent.success => INITIAL_RECONNECT_DELAY

/-- The delay values reachable by one symbol's connection loop, starting
from the initial delay. -/
inductive ReachableDelay : Nat → Prop where
  | init : ReachableDelay INITIAL_RECONNECT_DELAY
  | step {d : Nat} (e : ConnEvent) : ReachableDelay d → ReachableDelay (reconnectStep d e)

/-! ## Tick storage and the flush scheduler

`database.py` stores ticks keyed by the id string
`f"{symbol}_{timestamp}_{price}_{size}"`, which determines and is
determined by the quadruple; we key the store by the quadruple itself.
`session.merge` replaces the row with that key if present, else adds it;
`commit` either persists all staged rows or fails, in which case
`rollback` restores the prior state. -/

/-- The natural key of a stored tick row (the formatted id string of
`TickData.id` is a function of exactly these four fields). -/
def tickKey (t : Tick) : String × ℚ × ℚ × ℚ :=
  (t.symbol, t.ts, t.price, t.size)

/-- `session.merge` for one tick row: replace the row with the same key,
else append. -/
def mergeTick (db : List Tick) (t : Tick) : List Tick :=
  match db with
  | [] => [t]
  | u :: rest => if tickKey u = tickKey t then t :: rest else u :: mergeTick rest t

/-- Model of `Database.insert_ticks_batch` (`database.py` lines 90-106):
merge every tick of the batch, then commit.  The surrounding
`try/except` logs any error and rolls the session back, so the call
never raises; `commitOk = false` is a failing commit, after which the
rollback leaves the store unchanged.  Returns the new store and whether
an error was logged. -/
def insert_ticks_batch (db : List Tick) (ticks : List Tick) (commitOk : Bool) :
    List Tick × Bool :=
  if commitOk then (ticks.foldl mergeTick db, false) else (db, true)

/-- State seen by the flush scheduler: the shared in-memory buffer and the
tick store. -/
structure FlushState where
  buffer : List Tick
  db : List Tick
  deriving DecidableEq, Repr

/-- Result of one flush cycle: the new state and whether a storage error
was logged this cycle. -/
structure FlushResult where
  state : FlushState
  errorLogged : Bool
  deriving DecidableEq, Repr

/-- Model of one iteration of `BinanceCollector.save_buffer`
(`data_collector.py` lines 117-132) after the 2-second sleep: an empty
buffer is skipped; otherwise the batch is handed to
`Database.insert_ticks_batch` — which never raises — and the buffer is
cleared.  The scheduler's own `except` branch is unreachable with this
storage implementation, so the function is total: no failure propagates. -/
def save_buffer_step (st : FlushState) (commitOk : Bool) : FlushResult :=
  if st.buffer = [] then ⟨st, false⟩
  else
    let r := insert_ticks_batch st.db st.buffer commitOk
    ⟨⟨[], r.1⟩, r.2⟩

/-! ## OHLC storage (`database.py`, `Database.insert_ohlc`, lines 108-128)

Rows are keyed by the id string `f"{symbol}_{timeframe}_{timestamp}"`;
`session.merge` upserts by that primary key and `commit`/`rollback`
behave as above. -/

/-- A stored OHLC bar row. -/
structure OHLCRow where
  symbol : String
  ts : Nat
  timeframe : String
  o : ℚ
  hi : ℚ
  lo : ℚ
  c : ℚ
  v : ℚ
  deriving DecidableEq, Repr

/-- The primary-key string of an OHLC row, mirroring
`ohlc_id = f"{symbol}_{timeframe}_{timestamp.isoformat()}"`. -/
def ohlcId (symbol timeframe : String) (ts : Nat) : String :=
  symbol ++ "_" ++ timeframe ++ "_" ++ toString ts

/-- The OHLC store: rows indexed by their id string. -/
def OHLCStore : Type := List (String × OHLCRow)

/-- `session.merge` for an OHLC row: replace the row bearing the same id,
else append. -/
def mergeOHLC (db : OHLCStore) (k : String) (r : OHLCRow) : OHLCStore :=
  match db with
  | [] => [(k, r)]
  | (k', r') :: rest =>
      if k' = k then (k, r) :: rest else (k', r') :: mergeOHLC rest k r

/-- Lookup of the row stored under an id. -/
def lookupOHLC (db : OHLCStore) (k : String) : Option OHLCRow :=
  match db with
  | [] => none
  | (k', r') :: rest => if k' = k then some r' else lookupOHLC rest k

/-- Model of `Database.insert_ohlc` (`database.py` lines 108-128): build
the id from `(symbol, timeframe, timestamp)`, merge, commit; on a failing
commit the rollback leaves the store unchanged (the error is caught and
logged there, never raised). -/
def insert_ohlc (db : OHLCStore) (symbol : String) (ts : Nat) (timeframe : String)
    (o hi lo c v : ℚ) (commitOk : Bool) : OHLCStore :=
  if commitOk then
    mergeOHLC db (ohlcId symbol timeframe ts) ⟨symbol, ts, timeframe, o, hi, lo, c, v⟩
  else db

/-! ## Tick normalizer (`data_collector.py`, `normalize` / `handle_trade`)

A raw message is a decoded JSON object.  For the numeric fields `'p'` and
`'q'` the code applies Python `float(...)`: a JSON number or a numeric
string yields its value, while `null` or a non-numeric value raises; we
model a field value by that outcome.  The millisecond time fields
`'T'`/`'E'`/`'t'` are modelled as numeric-or-absent. -/

/-- A JSON field value as seen by `float(...)`: `num q` is a number or a
numeric string that parses to `q`; `malformed` is `null` or any value
`float` rejects (raising `ValueError`/`TypeError`). -/
inductive JValue where
  | num (q : ℚ)
  | malformed
  deriving DecidableEq, Repr

/-- Python `float(v)` on a field value. -/
def pyFloat : JValue → Except String ℚ
  | JValue.num q => Except.ok q
  | JValue.malformed => Except.error "could not convert value to float"

/-- The decoded fields of a raw Binance trade message that `normalize`
reads. -/
structure RawMsg where
  e : Option String
  s : Option String
  T : Option ℚ
  E : Option ℚ
  t : Option ℚ
  p : Option JValue
  q : Option JValue
  deriving Repr

/-- Python `a or b` on optional numbers: `None` and `0` are falsy. -/
def pyOr (a b : Option ℚ) : Option ℚ :=
  match a with
  | some x => if x = 0 then b else some x
  | none => b

/-- The timestamp chosen by `normalize`:
`timestamp = data.get('T') or data.get('E') or data.get('t')`, then
`datetime.fromtimestamp(timestamp / 1000)` if truthy else
`datetime.utcnow()` (modelled by the parameter `now`). -/
def normalizeTs (now : ℚ) (m : RawMsg) : ℚ :=
  match pyOr (pyOr m.T m.E) m.t with
  | some v => if v = 0 then now else v / 1000
  | none => now

/-- Model of `BinanceCollector.normalize` (`data_collector.py` lines
54-67).  `float(data.get('p', 0))` defaults a missing field to `0` before
conversion; a malformed present field makes `float` raise, which
propagates out of `normalize`. -/
def normalizeMsg (now : ℚ) (m : RawMsg) : Except String Tick :=
  match pyFloat (m.p.getD (JValue.num 0)) with
  | Except.error err => Except.error err
  | Except.ok price =>
    match pyFloat (m.q.getD (JValue.num 0)) with
    | Except.error err => Except.error err
    | Except.ok size =>
      Except.ok ⟨(m.s.getD "").toLower, normalizeTs now m, price, size⟩

/-- Model of `BinanceCollector.handle_trade` (`data_collector.py` lines
69-82).  `message` is the result of `json.loads`; a decode error and any
error raised by `normalize` are caught by the two `except` branches
(logged, message dropped), so the function is total: nothing escapes. -/
def handle_trade (now : ℚ) (buffer : List Tick) (message : Except String RawMsg) :
    List Tick :=
  match message with
  | Except.error _ => buffer
  | Except.ok m =>
    if m.e = some "trade" then
      match normalizeMsg now m with
      | Except.ok tick => buffer ++ [tick]
      | Except.error _ => buffer
    else buffer

/-- The numeric value the claim says a price/quantity field contributes:
its parsed value, and `0.0` when the field is missing or malformed. -/
def fieldValue : Option JValue → ℚ
  | some (JValue.num q) => q
  | some JValue.malformed => 0
  | none => 0

/-- Behaviour asserted by the claim (stated from the claim's words, for
comparison with `handle_trade`): every message whose event type is
`"trade"` yields a tick, with missing or malformed price/quantity
becoming `0.0`. -/
def handle_trade_claimed (now : ℚ) (buffer : List Tick) (m : RawMsg) : List Tick :=
  if m.e = some "trade" then
    buffer ++ [⟨(m.s.getD "").toLower, normalizeTs now m, fieldValue m.p, fieldValue m.q⟩]
  else buffer

/-! ## Aggregation loop (`data_processor.py`, `DataProcessor.process_timeframe`)

One iteration of the `while self.running` loop: a `try` block runs the
`for symbol in symbols` loop and then sleeps the timeframe cadence; the
`except` branch catches any exception raised inside, logs it, and sleeps
5 seconds instead.  Whether processing a given symbol raises this cycle
is abstracted by the oracle `fails`. -/

/-- The cadence table
`{'1s': 1, '1m': 60, '5m': 300}.get(timeframe, 60)` (seconds). -/
def wait_seconds (timeframe : String) : Nat :=
  if timeframe = "1s" then 1
  else if timeframe = "1m" then 60
  else if timeframe = "5m" then 300
  else 60

/-- Outcome of one cycle of `process_timeframe`: which symbols were fully
processed, whether an exception was caught and logged, and how long the
loop sleeps before the next cycle. -/
structure CycleResult where
  processed : List String
  errorLogged : Bool
  sleepSecs : Nat
  deriving DecidableEq, Repr

/-- The `for symbol in symbols` body: symbols are processed in order and
the first one that raises aborts the loop (the exception propagates to
the surrounding `try`).  Returns the symbols processed and whether an
exception was raised. -/
def runSymbolLoop : List String → (String → Bool) → List String × Bool
  | [], _ => ([], false)
  | s :: rest, fails =>
    if fails s then ([], true)
    else
      let r := runSymbolLoop rest fails
      (s :: r.1, r.2)

/-- Model of one cycle of `DataProcessor.process_timeframe`
(`data_processor.py` lines 34-81): run the symbol loop inside `try`; on
an exception, log and sleep 5; otherwise sleep the cadence. -/
def process_cycle (symbols : List String) (fails : String → Bool)
    (timeframe : String) : CycleResult :=
  let r := runSymbolLoop symbols fails
  if r.2 then ⟨r.1, true, 5⟩ else ⟨r.1, false, wait_seconds timeframe⟩

/-- Behaviour asserted by the claim (stated from the claim's words): an
error in one symbol's processing does not prevent the remaining symbols
of the same cycle from being processed, is caught and logged, and makes
the loop sleep the 5-second recovery interval. -/
def process_cycle_claimed (symbols : List String) (fails : String → Bool)
    (timeframe : String) : CycleResult :=
  if symbols.any fails then
    ⟨symbols.filter (fun s => !(fails s)), true, 5⟩
  else ⟨symbols, false, wait_seconds timeframe⟩

/-! ## Spread (`analytics.py`, `AnalyticsEngine.compute_spread`, lines 131-163)

`pd.merge_asof(left, right, on='timestamp')` pairs each row of the LEFT
frame with the last row of the (sorted) RIGHT frame whose timestamp is at
or before the left row's timestamp; an unmatched left row gets `NaN`.
The code sorts both inputs by timestamp and passes `df1` as the left
frame.  `if hedge_ratio:` is Python truthiness: `None` and `0.0` both
select the unscaled branch. -/

/-- The as-of match: the price of the last row of `rows` (taken in list
order, which is sorted order at every call site) whose timestamp is at or
before `t`. -/
def asofPrice (t : Nat) (rows : List PriceRow) : Option ℚ :=
  ((rows.filter (fun r => r.ts ≤ t)).getLast?).map PriceRow.price

/-- Model of `AnalyticsEngine.compute_spread`: empty input gives an empty
series; otherwise merge as-of with `df1` on the left and subtract,
scaling by the hedge ratio only when it is supplied and truthy. -/
def compute_spread (df1 df2 : List PriceRow) (hedge : Option ℚ) : List (Option ℚ) :=
  if df1 = [] ∨ df2 = [] then []
  else
    let left := sortOn PriceRow.ts df1
    let right := sortOn PriceRow.ts df2
    let useRatio : Bool := match hedge with
      | some h => decide (h ≠ 0)
      | none => false
    left.map (fun r =>
      match asofPrice r.ts right with
      | some p2 => some (if useRatio then p2 - hedge.getD 1 * r.price else p2 - r.price)
      | none => none)

/-- Behaviour asserted by the claim (stated from the claim's words): each
row of series B (`df2`) is paired with the most recent row of series A
(`df1`) at or before its timestamp, and the spread is
`priceB - hedge * priceA`, the hedge ratio defaulting to `1` when not
supplied. -/
def compute_spread_claimed (df1 df2 : List PriceRow) (hedge : Option ℚ) :
    List (Option ℚ) :=
  if df1 = [] ∨ df2 = [] then []
  else
    let hr := hedge.getD 1
    (sortOn PriceRow.ts df2).map (fun rB =>
      (asofPrice rB.ts (sortOn PriceRow.ts df1)).map (fun pA => rB.price - hr * pA))

/-- The amended behaviour: each row of series A (`df1`) is paired with the
most recent row of series B (`df2`) at or before its timestamp, the
spread is `priceB - hedge * priceA` per row of series A (undefined where
no B row exists at or before), and the hedge ratio is treated as `1`
whenever it is not supplied or equals `0`. -/
def compute_spread_amended (df1 df2 : List PriceRow) (hedge : Option ℚ) :
    List (Option ℚ) :=
  if df1 = [] ∨ df2 = [] then []
  else
    let hr := match hedge with
      | some h => if h = 0 then 1 else h
      | none => 1
    (sortOn PriceRow.ts df1).map (fun rA =>
      (asofPrice rA.ts (sortOn PriceRow.ts df2)).map (fun pB => pB - hr * rA.price))

/-! ## Rolling z-score (`analytics.py`, `AnalyticsEngine.compute_zscore`, lines 165-186)

`series.rolling(window=w).mean()`/`.std()` are `NaN` until a full window
of `w` observations is available (the default `min_periods`), and `.std()`
uses `ddof = 1`, so a window of fewer than two observations is also
`NaN`.  `.replace(0, np.nan)` turns an exactly-zero standard deviation
into `NaN` before the division.  The square root inside `.std()` is
modelled by the parameter `sqrtQ`; only its zero set matters here. -/

/-- The trailing window of `w` values ending at position `i`, available
once `i + 1 ≥ w`. -/
def rollingWindow (w : Nat) (xs : List ℚ) (i : Nat) : Option (List ℚ) :=
  if w ≤ i + 1 then some ((xs.take (i + 1)).drop (i + 1 - w)) else none

/-- Arithmetic mean of a list of rationals. -/
def listMean (l : List ℚ) : ℚ := l.sum / l.length

/-- Sample variance with `ddof = 1`, as used by `pandas` `.std()` (before
the square root). -/
def sampleVar (l : List ℚ) : ℚ :=
  ((l.map (fun x => (x - listMean l) ^ 2)).sum) / ((l.length : ℚ) - 1)

/-- Model of `AnalyticsEngine.compute_zscore`: empty input gives an empty
series; otherwise, per position, `NaN` while the window is not full or
holds fewer than two observations, `NaN` where the rolling standard
deviation is exactly zero, else `(value - rolling_mean) / rolling_std`. -/
def compute_zscore (sqrtQ : ℚ → ℚ) (window : Nat) (series : List ℚ) :
    List (Option ℚ) :=
  if series = [] then []
  else
    (List.range series.length).map (fun i =>
      match rollingWindow window series i with
      | none => none
      | some ws =>
        if ws.length < 2 then none
        else
          let sd := sqrtQ (sampleVar ws)
          if sd = 0 then none
          else some ((series.getD i 0 - listMean ws) / sd))

/-! ## ADF test (`analytics.py`, `AnalyticsEngine.compute_adf_test`, lines 188-221)

The `statsmodels.adfuller` routine is external to this repository; it is
modelled by an oracle returning the raw tuple
`(adf_statistic, pvalue, usedlag, nobs, critical_values)`.  Modelled as a
total function, the `except` branch around it is unreachable. -/

/-- The raw tuple returned by `adfuller`. -/
structure ADFRaw where
  stat : ℚ
  pvalue : ℚ
  usedlag : Nat
  nobs : Nat
  crit : List (String × ℚ)
  deriving DecidableEq, Repr

/-- The dictionary returned by `compute_adf_test`: either an error marker
or the full numeric result. -/
inductive ADFResult where
  | err (msg : String)
  | ok (stat pvalue : ℚ) (crit : List (String × ℚ)) (nLags nObs : Nat)
      (isStationary : Bool)
  deriving DecidableEq, Repr

/-- Model of `AnalyticsEngine.compute_adf_test`: an empty or short series
is rejected, `dropna` removes missing values, a short cleaned series is
rejected, else `adfuller` runs and the verdict compares the p-value with
`0.05`. -/
def compute_adf_test (adfuller : List ℚ → ADFRaw) (series : List (Option ℚ)) :
    ADFResult :=
  if series = [] ∨ series.length < 10 then
    ADFResult.err "Insufficient data for ADF test"
  else
    let clean := series.filterMap id
    if clean.length < 10 then ADFResult.err "Insufficient valid data"
    else
      let r := adfuller clean
      ADFResult.ok r.stat r.pvalue r.crit r.usedlag r.nobs
        (decide (r.pvalue < 5 / 100))

/-! ## Resampling (`analytics.py`, `AnalyticsEngine.resample_data`, lines 247-286)

`df.set_index('timestamp')` then `df[price].resample(freq).ohlc()` and
`df[size].resample(freq).sum()`: rows are taken in chronological index
order; buckets of length `freq` aligned to the epoch (for `1S`/`1T`/`5T`
the day-origin alignment coincides with epoch alignment) are generated
from the first occupied bucket to the last; an empty bucket has `NaN`
open/high/low/close and volume `0`, and `dropna()` then removes exactly
the empty buckets.  Timestamps are integral milliseconds, so `freq` is
`1000`, `60000` or `300000` ms. -/

/-- The frequency table `{'1s': '1S', '1m': '1T', '5m': '5T'}` with
default `'1T'`, as bucket lengths in milliseconds. -/
def freqOf (timeframe : String) : Nat :=
  if timeframe = "1s" then 1000
  else if timeframe = "1m" then 60000
  else if timeframe = "5m" then 300000
  else 60000

/-- The start of the bucket of length `len` containing instant `ts`. -/
def bucketOf (len ts : Nat) : Nat := ts / len * len

/-- All bucket starts from `b0` to `b1` (both multiples of `len`),
stepping by `len` — the index produced by `resample`. -/
def bucketIndexList (len b0 b1 : Nat) : List Nat :=
  (List.range ((b1 - b0) / len + 1)).map (fun i => b0 + i * len)

/-- The rows of `rows` falling in the bucket starting at `b`. -/
def groupTicks (len b : Nat) (rows : List TickRow) : List TickRow :=
  rows.filter (fun t => bucketOf len t.ts == b)

/-- `open`/`high`/`low`/`close` of a bucket's prices in chronological
order: `NaN` (none) for an empty bucket, else the first, the running
maximum, the running minimum, and the last. -/
def ohlcOf (prices : List ℚ) : Option (ℚ × ℚ × ℚ × ℚ) :=
  match prices with
  | [] => none
  | p :: ps => some (p, ps.foldl max p, ps.foldl min p, (p :: ps).getLastD p)

/-- An output bar of `resample_data` (a row of the returned DataFrame
after `reset_index`). -/
structure OHLCBar where
  ts : Nat
  o : ℚ
  hi : ℚ
  lo : ℚ
  c : ℚ
  v : ℚ
  deriving DecidableEq, Repr

/-- The bar of one bucket: none when the bucket is empty (its `NaN` row
is removed by `dropna`), else the OHLC of its prices and the sum of its
sizes. -/
def mkBar (b : Nat) (g : List TickRow) : Option OHLCBar :=
  (ohlcOf (g.map TickRow.price)).map (fun q =>
    ⟨b, q.1, q.2.1, q.2.2.1, q.2.2.2, (g.map TickRow.size).sum⟩)

/-- Model of `AnalyticsEngine.resample_data`: empty input gives an empty
frame; otherwise rows are taken in chronological order, the bucket index
spans from the bucket of the earliest row to the bucket of the latest
row, and each non-empty bucket contributes one bar. -/
def resample_data (df : List TickRow) (timeframe : String) : List OHLCBar :=
  match sortOn TickRow.ts df with
  | [] => []
  | r0 :: rest =>
    let len := freqOf timeframe
    let rows := r0 :: rest
    let b0 := bucketOf len r0.ts
    let b1 := bucketOf len ((r0 :: rest).getLastD r0).ts
    (bucketIndexList len b0 b1).filterMap (fun b => mkBar b (groupTicks len b rows))

/-! ## Theorems -/

/-! ### Helper lemmas about the OHLC store -/

theorem lookupOHLC_mergeOHLC_same (db : OHLCStore) (k : String) (r : OHLCRow) :
    lookupOHLC (mergeOHLC db k r) k = some r := by
  induction db with
  | nil => simp [mergeOHLC, lookupOHLC]
  | cons hd tl ih =>
    obtain ⟨k', r'⟩ := hd
    by_cases h : k' = k <;> simp [mergeOHLC, lookupOHLC, h, ih]

theorem lookupOHLC_mergeOHLC_other (db : OHLCStore) (k : String) (r : OHLCRow)
    (k' : String) (h : k' ≠ k) :
    lookupOHLC (mergeOHLC db k r) k' = lookupOHLC db k' := by
  have hkk : ¬(k = k') := fun e => h e.symm
  induction db with
  | nil => simp [mergeOHLC, lookupOHLC, hkk]
  | cons hd tl ih =>
    obtain ⟨k0, r0⟩ := hd
    by_cases h0 : k0 = k
    · subst h0
      simp [mergeOHLC, lookupOHLC, hkk]
    · simp [mergeOHLC, lookupOHLC, h0, ih]

theorem mergeOHLC_of_lookup_eq (db : OHLCStore) (k : String) (r : OHLCRow)
    (h : lookupOHLC db k = some r) : mergeOHLC db k r = db := by
  induction db with
  | nil => simp [lookupOHLC] at h
  | cons hd tl ih =>
    obtain ⟨k0, r0⟩ := hd
    by_cases h0 : k0 = k
    · subst h0
      simp [lookupOHLC] at h
      subst h
      simp [mergeOHLC]
    · simp [lookupOHLC, h0] at h
      simp [mergeOHLC, h0, ih h]

theorem mem_keys_mergeOHLC (db : OHLCStore) (k : String) (r : OHLCRow)
    (a : String) (ha : a ∈ (mergeOHLC db k r).map Prod.fst) :
    a = k ∨ a ∈ db.map Prod.fst := by
  induction db with
  | nil =>
    left
    simpa [mergeOHLC] using ha
  | cons hd tl ih =>
    obtain ⟨k0, r0⟩ := hd
    by_cases h0 : k0 = k
    · subst h0
      have he : mergeOHLC ((k0, r0) :: tl) k0 r = (k0, r) :: tl := by
        simp [mergeOHLC]
      rw [he] at ha
      simp only [List.map_cons, List.mem_cons] at ha ⊢
      tauto
    · have he : mergeOHLC ((k0, r0) :: tl) k r = (k0, r0) :: mergeOHLC tl k r := by
        simp [mergeOHLC, h0]
      rw [he] at ha
      simp only [List.map_cons, List.mem_cons] at ha ⊢
      rcases ha with ha | ha
      · tauto
      · rcases ih ha with h1 | h1 <;> tauto

theorem mergeOHLC_keys_nodup (db : OHLCStore) (k : String) (r : OHLCRow)
    (h : (db.map Prod.fst).Nodup) : ((mergeOHLC db k r).map Prod.fst).Nodup := by
  induction db with
  | nil => simp [mergeOHLC]
  | cons hd tl ih =>
    obtain ⟨k0, r0⟩ := hd
    simp only [List.map_cons, List.nodup_cons] at h
    by_cases h0 : k0 = k
    · subst h0
      have he : mergeOHLC ((k0, r0) :: tl) k0 r = (k0, r) :: tl := by
        simp [mergeOHLC]
      rw [he]
      simp only [List.map_cons, List.nodup_cons]
      exact h
    · have he : mergeOHLC ((k0, r0) :: tl) k r = (k0, r0) :: mergeOHLC tl k r := by
        simp [mergeOHLC, h0]
      rw [he]
      simp only [List.map_cons, List.nodup_cons]
      refine ⟨fun hmem => ?_, ih h.2⟩
      rcases mem_keys_mergeOHLC tl k r k0 hmem with h1 | h1
      · exact h0 h1
      · exact h.1 h1

theorem countP_keys_le_one (db : OHLCStore) (k : String)
    (h : (db.map Prod.fst).Nodup) :
    db.countP (fun e => e.1 == k) ≤ 1 := by
  induction db with
  | nil => simp
  | cons hd tl ih =>
    obtain ⟨k0, r0⟩ := hd
    simp only [List.map_cons, List.nodup_cons] at h
    by_cases h0 : k0 = k
    · subst h0
      have hz : tl.countP (fun e => e.1 == k0) = 0 := by
        rw [List.countP_eq_zero]
        intro e he hek
        exact h.1 (List.mem_map.mpr ⟨e, he, (beq_iff_eq.mp hek)⟩)
      simp [List.countP_cons, hz]
    · have : ((⟨k0, r0⟩ : String × OHLCRow).1 == k) = false := beq_eq_false_iff_ne.mpr h0
      simp [List.countP_cons, this, ih h.2]

/-! ### C4 — reconnect backoff -/

/-- C4: every reachable per-symbol reconnect delay is a term of the
sequence `1, 2, 4, 8, ...` capped at `60` — in particular it never
exceeds 60 — and a successful connection resets the delay to the initial
value `1`. -/
theorem reconnect_delay_c4 (d : Nat) (h : ReachableDelay d) :
    (∃ k : Nat, d = min (2 ^ k) 60) ∧ d ≤ 60 ∧
      reconnectStep d ConnEvent.success = 1 := by
  have hk : ∃ k : Nat, d = min (2 ^ k) 60 := by
    induction h with
    | init => exact ⟨0, by simp [INITIAL_RECONNECT_DELAY]⟩
    | step e _ ih =>
      obtain ⟨k, hk⟩ := ih
      cases e with
      | success => exact ⟨0, by simp [reconnectStep, INITIAL_RECONNECT_DELAY]⟩
      | fail =>
        refine ⟨k + 1, ?_⟩
        subst hk
        have hp : 2 ^ (k + 1) = 2 ^ k * 2 := pow_succ 2 k
        simp only [reconnectStep, MAX_RECONNECT_DELAY]
        omega
  refine ⟨hk, ?_, rfl⟩
  obtain ⟨k, hk⟩ := hk
  omega

/-- Witness for C4 at the concrete reachable delay `4` (two failures
after the initial connection). -/
theorem reconnect_delay_c4_witness :
    (∃ k : Nat, (4 : Nat) = min (2 ^ k) 60) ∧ (4 : Nat) ≤ 60 ∧
      reconnectStep 4 ConnEvent.success = 1 :=
  reconnect_delay_c4 4 (by
    have h1 := ReachableDelay.init
    have h2 := ReachableDelay.step ConnEvent.fail h1
    have h3 := ReachableDelay.step ConnEvent.fail h2
    simpa [reconnectStep, INITIAL_RECONNECT_DELAY, MAX_RECONNECT_DELAY] using h3)

/-! ### C5 — batched write failure during a flush cycle -/

/-- C5: when the batched tick write fails during a flush cycle, the
failure is logged (by `insert_ticks_batch` itself), the buffer is cleared
all the same — the batch is not re-buffered and the store keeps its prior
state, so that interval's data is lost — and the next cycle has nothing
to retry.  `save_buffer_step` is a total function, so the failure never
propagates out of the flush scheduler. -/
theorem save_buffer_failure_c5 (st : FlushState) (ok2 : Bool)
    (h : st.buffer ≠ []) :
    save_buffer_step st false = ⟨⟨[], st.db⟩, true⟩ ∧
      save_buffer_step ⟨[], st.db⟩ ok2 = ⟨⟨[], st.db⟩, false⟩ := by
  constructor
  · simp [save_buffer_step, insert_ticks_batch, h]
  · simp [save_buffer_step]

/-- Witness for C5: one buffered tick, failing write. -/
theorem save_buffer_failure_c5_witness :
    save_buffer_step ⟨[⟨"btcusdt", 0, 100, 1⟩], []⟩ false =
        ⟨⟨[], []⟩, true⟩ ∧
      save_buffer_step ⟨[], []⟩ true = ⟨⟨[], []⟩, false⟩ :=
  save_buffer_failure_c5 ⟨[⟨"btcusdt", 0, 100, 1⟩], []⟩ true (by simp)

/-! ### C9 — idempotent OHLC upsert -/

/-- C9: `insert_ohlc` is an idempotent upsert keyed by
`(symbol, timeframe, timestamp)`: re-inserting an existing bar with
identical field values leaves the store unchanged; inserting with an
existing key and different values overwrites them while all other keys
are untouched; the keys stay duplicate-free, so at most one bar exists
per key. -/
theorem insert_ohlc_c9 (db : OHLCStore) (symbol timeframe : String) (ts : Nat)
    (o hi lo c v : ℚ) (hnd : (db.map Prod.fst).Nodup) :
    (lookupOHLC db (ohlcId symbol timeframe ts) =
          some ⟨symbol, ts, timeframe, o, hi, lo, c, v⟩ →
        insert_ohlc db symbol ts timeframe o hi lo c v true = db) ∧
    lookupOHLC (insert_ohlc db symbol ts timeframe o hi lo c v true)
        (ohlcId symbol timeframe ts) =
      some ⟨symbol, ts, timeframe, o, hi, lo, c, v⟩ ∧
    (∀ k', k' ≠ ohlcId symbol timeframe ts →
        lookupOHLC (insert_ohlc db symbol ts timeframe o hi lo c v true) k' =
          lookupOHLC db k') ∧
    ((insert_ohlc db symbol ts timeframe o hi lo c v true).map Prod.fst).Nodup ∧
    (∀ k', (insert_ohlc db symbol ts timeframe o hi lo c v true).countP
        (fun e => e.1 == k') ≤ 1) := by
  simp only [insert_ohlc, if_pos rfl]
  refine ⟨fun h => mergeOHLC_of_lookup_eq _ _ _ h,
    lookupOHLC_mergeOHLC_same _ _ _,
    fun k' hk' => lookupOHLC_mergeOHLC_other _ _ _ _ hk',
    mergeOHLC_keys_nodup _ _ _ hnd,
    fun k' => countP_keys_le_one _ k' (mergeOHLC_keys_nodup _ _ _ hnd)⟩

/-- Witness for C9: inserting into the empty store. -/
theorem insert_ohlc_c9_witness :
    lookupOHLC (insert_ohlc [] "btcusdt" 0 "1m" 1 2 (1 / 2) 1 3 true)
        (ohlcId "btcusdt" "1m" 0) =
      some ⟨"btcusdt", 0, "1m", 1, 2, 1 / 2, 1, 3⟩ :=
  (insert_ohlc_c9 [] "btcusdt" "1m" 0 1 2 (1 / 2) 1 3 (by simp)).2.1

/-! ### C1 — error handling in the aggregation loop -/

/-- C1 counterexample: with known symbols `["a", "b"]` where processing
`"a"` raises a transient error, the cycle processes nothing further —
`"b"` is skipped — whereas the claimed behaviour still processes `"b"`.
The claim, as stated, is false on this input. -/
theorem process_cycle_c1_counterexample :
    process_cycle ["a", "b"] (fun s => s == "a") "1m" ≠
      process_cycle_claimed ["a", "b"] (fun s => s == "a") "1m" := by
  decide

/-- C1 amended: a transient error raised while processing one symbol is
caught and logged at the cycle level and the loop sleeps the 5-time-unit
recovery interval before the next attempt, but it aborts the remainder
of that cycle: exactly the symbols strictly before the first failing one
are processed.  With no failing symbol every symbol is processed and the
loop sleeps the timeframe's normal cadence. -/
theorem process_cycle_c1 (symbols : List String) (fails : String → Bool)
    (timeframe : String) :
    process_cycle symbols fails timeframe =
      if symbols.any fails then
        ⟨symbols.takeWhile (fun s => !(fails s)), true, 5⟩
      else ⟨symbols, false, wait_seconds timeframe⟩ := by
  have hrun : ∀ l : List String,
      runSymbolLoop l fails = (l.takeWhile (fun s => !(fails s)), l.any fails) := by
    intro l
    induction l with
    | nil => simp [runSymbolLoop]
    | cons s rest ih =>
      by_cases hs : fails s
      · simp [runSymbolLoop, hs, List.takeWhile_cons, List.any_cons]
      · simp [runSymbolLoop, hs, List.takeWhile_cons, List.any_cons, ih]
  by_cases ha : symbols.any fails
  · simp [process_cycle, hrun, ha]
  · have hall : ∀ x ∈ symbols, fails x = false := by
      intro x hx
      by_contra hcon
      exact ha (List.any_eq_true.mpr ⟨x, hx, by simpa using hcon⟩)
    have htw : symbols.takeWhile (fun s => !(fails s)) = symbols :=
      List.takeWhile_eq_self_iff.mpr (by
        intro x hx
        simp [hall x hx])
    simp [process_cycle, hrun, ha, htw]

/-! ### C3 — normalizer behaviour on missing and malformed fields -/

/-- C3 counterexample: a `"trade"` message whose price field is malformed
(`float` raises on it) is dropped — the buffer is left unchanged — while
the claimed behaviour appends a tick with price `0.0`.  The claim, as
stated, is false on this input. -/
theorem handle_trade_c3_counterexample :
    handle_trade 0 []
        (Except.ok ⟨some "trade", some "BTCUSDT", some 1000, none, none,
          some JValue.malformed, some (JValue.num 2)⟩) = [] ∧
      handle_trade_claimed 0 []
          ⟨some "trade", some "BTCUSDT", some 1000, none, none,
            some JValue.malformed, some (JValue.num 2)⟩ ≠ [] := by
  constructor
  · rfl
  · simp [handle_trade_claimed]

/-- C3 amended: `handle_trade` never raises (it is a total function); for
a message whose event type is `"trade"`, a missing price or quantity
field yields `0.0` in the resulting tick, while a malformed price or
quantity field causes the message to be dropped — the error is caught
and logged inside `handle_trade`, leaving the buffer unchanged. -/
theorem handle_trade_c3 (now : ℚ) (buffer : List Tick) (m : RawMsg)
    (he : m.e = some "trade") :
    (m.p ≠ some JValue.malformed → m.q ≠ some JValue.malformed →
        handle_trade now buffer (Except.ok m) =
          buffer ++ [⟨(m.s.getD "").toLower, normalizeTs now m,
            fieldValue m.p, fieldValue m.q⟩]) ∧
    ((m.p = some JValue.malformed ∨ m.q = some JValue.malformed) →
        handle_trade now buffer (Except.ok m) = buffer) := by
  constructor
  · intro hp hq
    have hpv : pyFloat (m.p.getD (JValue.num 0)) = Except.ok (fieldValue m.p) := by
      match hmp : m.p with
      | none => rfl
      | some (JValue.num q) => rfl
      | some JValue.malformed => exact absurd hmp hp
    have hqv : pyFloat (m.q.getD (JValue.num 0)) = Except.ok (fieldValue m.q) := by
      match hmq : m.q with
      | none => rfl
      | some (JValue.num q) => rfl
      | some JValue.malformed => exact absurd hmq hq
    simp [handle_trade, he, normalizeMsg, hpv, hqv]
  · intro hbad
    rcases hbad with hbad | hbad
    · simp [handle_trade, he, normalizeMsg, hbad, pyFloat]
    · match hmp : m.p with
      | none => simp [handle_trade, he, normalizeMsg, hmp, hbad, pyFloat]
      | some (JValue.num q) => simp [handle_trade, he, normalizeMsg, hmp, hbad, pyFloat]
      | some JValue.malformed => simp [handle_trade, he, normalizeMsg, hmp, pyFloat]

/-- Witness for C3 (amended) at a concrete trade message with a numeric
price and a missing quantity: a tick with size `0.0` is appended. -/
theorem handle_trade_c3_witness :
    handle_trade 0 []
        (Except.ok ⟨some "trade", none, none, none, none,
          some (JValue.num (11 / 2)), none⟩) =
      [⟨"".toLower, 0, 11 / 2, 0⟩] := by
  have h := (handle_trade_c3 0 []
      ⟨some "trade", none, none, none, none, some (JValue.num (11 / 2)), none⟩
      rfl).1 (by simp) (by simp)
  simpa [normalizeTs, pyOr, fieldValue] using h

/-! ### Helper lemmas about sorting, buckets and bars -/

theorem sortOn_sorted (key : α → Nat) (l : List α) :
    List.Sorted (fun a b => key a ≤ key b) (sortOn key l) :=
  List.sorted_insertionSort _ l

theorem mem_sortOn (key : α → Nat) (l : List α) (a : α) :
    a ∈ sortOn key l ↔ a ∈ l :=
  (List.perm_insertionSort _ l).mem_iff

theorem sortOn_eq_nil_iff (key : α → Nat) (l : List α) :
    sortOn key l = [] ↔ l = [] := by
  rw [← List.length_eq_zero, ← List.length_eq_zero (l := l)]
  unfold sortOn
  rw [(List.perm_insertionSort _ l).length_eq]

theorem getLastD_mem : ∀ (l : List α) (d : α), l ≠ [] → l.getLastD d ∈ l
  | [], _, h => absurd rfl h
  | [a], d, _ => by simp [List.getLastD_cons, List.getLastD_nil]
  | a :: b :: t, d, _ => by
    rw [List.getLastD_cons]
    exact List.mem_cons_of_mem a (getLastD_mem (b :: t) a (by simp))

theorem getLastD_irrel : ∀ (l : List α) (d1 d2 : α), l ≠ [] →
    l.getLastD d1 = l.getLastD d2
  | [], _, _, h => absurd rfl h
  | _ :: _, _, _, _ => by rw [List.getLastD_cons, List.getLastD_cons]

theorem sorted_head_le (key : α → Nat) (r0 : α) (rest : List α)
    (h : List.Sorted (fun a b => key a ≤ key b) (r0 :: rest)) :
    ∀ x ∈ r0 :: rest, key r0 ≤ key x := by
  intro x hx
  rcases List.mem_cons.mp hx with rfl | hx2
  · exact le_refl _
  · exact List.rel_of_sorted_cons h x hx2

theorem sorted_le_getLastD (key : α → Nat) :
    ∀ (l : List α) (d : α), List.Sorted (fun a b => key a ≤ key b) l →
      ∀ x ∈ l, key x ≤ key (l.getLastD d)
  | [], _, _, x, hx => absurd hx (List.not_mem_nil x)
  | [a], _, _, x, hx => by
    rcases List.mem_singleton.mp hx with rfl
    simp [List.getLastD_cons, List.getLastD_nil]
  | a :: b :: t, d, h, x, hx => by
    rw [List.getLastD_cons]
    rcases List.mem_cons.mp hx with rfl | hx2
    · exact List.rel_of_sorted_cons h _ (getLastD_mem (b :: t) x (by simp))
    · exact sorted_le_getLastD key (b :: t) a h.of_cons x hx2

theorem bucketOf_dvd (len ts : Nat) : len ∣ bucketOf len ts :=
  dvd_mul_left len (ts / len)

theorem bucketOf_mono (len : Nat) {t1 t2 : Nat} (h : t1 ≤ t2) :
    bucketOf len t1 ≤ bucketOf len t2 :=
  Nat.mul_le_mul_right len (Nat.div_le_div_right h)

theorem bucketOf_le_self (len ts : Nat) : bucketOf len ts ≤ ts :=
  Nat.div_mul_le_self ts len

theorem lt_bucketOf_add (len ts : Nat) (h : 0 < len) :
    ts < bucketOf len ts + len := by
  calc ts = ts / len * len + ts % len := (Nat.div_add_mod' ts len).symm
    _ < ts / len * len + len := Nat.add_lt_add_left (Nat.mod_lt ts h) _

theorem mem_bucketIndexList (len b0 b1 b : Nat) (hb0 : len ∣ b0)
    (hb : len ∣ b) (h1 : b0 ≤ b) (h2 : b ≤ b1) :
    b ∈ bucketIndexList len b0 b1 := by
  unfold bucketIndexList
  refine List.mem_map.mpr ⟨(b - b0) / len, List.mem_range.mpr ?_, ?_⟩
  · exact Nat.lt_succ_of_le (Nat.div_le_div_right (Nat.sub_le_sub_right h2 b0))
  · have hsub : len ∣ (b - b0) := Nat.dvd_sub' hb hb0
    rw [Nat.div_mul_cancel hsub]
    exact Nat.add_sub_cancel' h1

theorem head_mem_bucketIndexList (len b0 b1 : Nat) :
    b0 ∈ bucketIndexList len b0 b1 := by
  unfold bucketIndexList
  exact List.mem_map.mpr ⟨0, List.mem_range.mpr (Nat.succ_pos _), by simp⟩

theorem bucketIndexList_nodup (len b0 b1 : Nat) (hlen : 0 < len) :
    (bucketIndexList len b0 b1).Nodup := by
  unfold bucketIndexList
  refine (List.nodup_range _).map ?_
  intro i j hij
  have h1 : i * len = j * len := by
    have := Nat.add_left_cancel hij
    exact this
  exact Nat.eq_of_mul_eq_mul_right hlen h1

theorem countP_filterMap_ts_zero (f : Nat → Option OHLCBar) (l : List Nat)
    (b : Nat) (hf : ∀ x bar, f x = some bar → bar.ts = x) (hb : b ∉ l) :
    ((l.filterMap f).countP (fun bar => bar.ts == b)) = 0 := by
  induction l with
  | nil => rfl
  | cons a t ih =>
    have hba : b ≠ a := fun e => hb (e ▸ List.mem_cons_self a t)
    have hbt : b ∉ t := fun hmem => hb (List.mem_cons_of_mem a hmem)
    rw [List.filterMap_cons]
    cases hfa : f a with
    | none => exact ih hbt
    | some bar =>
      rw [List.countP_cons]
      have hts : bar.ts = a := hf a bar hfa
      have hfalse : (bar.ts == b) = false :=
        beq_eq_false_iff_ne.mpr (by rw [hts]; exact fun e => hba e.symm)
      simp [hfalse, ih hbt]

theorem countP_filterMap_ts_one (f : Nat → Option OHLCBar) (l : List Nat)
    (b : Nat) (hf : ∀ x bar, f x = some bar → bar.ts = x) (hnd : l.Nodup)
    (hb : b ∈ l) (hsome : (f b).isSome) :
    ((l.filterMap f).countP (fun bar => bar.ts == b)) = 1 := by
  induction l with
  | nil => cases hb
  | cons a t ih =>
    rw [List.filterMap_cons]
    rcases List.nodup_cons.mp hnd with ⟨hat, hndt⟩
    rcases List.mem_cons.mp hb with rfl | hbt
    · cases hfa : f b with
      | none =>
        rw [hfa] at hsome
        simp at hsome
      | some bar =>
        rw [List.countP_cons]
        have hts : bar.ts = b := hf b bar hfa
        have hz := countP_filterMap_ts_zero f t b hf hat
        simp [hz, hts]
    · have hab : a ≠ b := fun e => hat (e ▸ hbt)
      cases hfa : f a with
      | none => exact ih hndt hbt
      | some bar =>
        rw [List.countP_cons]
        have hts : bar.ts = a := hf a bar hfa
        have hfalse : (bar.ts == b) = false :=
          beq_eq_false_iff_ne.mpr (by rw [hts]; exact hab)
        simp [hfalse, ih hndt hbt]

theorem foldl_max_mem (a : ℚ) (l : List ℚ) : l.foldl max a ∈ a :: l := by
  induction l generalizing a with
  | nil => simp
  | cons x t ih =>
    rw [List.foldl_cons]
    rcases List.mem_cons.mp (ih (max a x)) with h1 | h1
    · rw [h1]
      rcases max_choice a x with hm | hm <;> simp [hm]
    · simp [h1]

theorem le_foldl_max (a : ℚ) (l : List ℚ) : ∀ x ∈ a :: l, x ≤ l.foldl max a := by
  induction l generalizing a with
  | nil =>
    intro x hx
    rcases List.mem_singleton.mp hx with rfl
    simp
  | cons y t ih =>
    intro x hx
    rw [List.foldl_cons]
    rcases List.mem_cons.mp hx with rfl | hx2
    · exact le_trans (le_max_left x y) (ih (max x y) _ (List.mem_cons_self _ _))
    · rcases List.mem_cons.mp hx2 with rfl | hx3
      · exact le_trans (le_max_right a x) (ih (max a x) _ (List.mem_cons_self _ _))
      · exact ih (max a y) x (List.mem_cons_of_mem _ hx3)

theorem foldl_min_mem (a : ℚ) (l : List ℚ) : l.foldl min a ∈ a :: l := by
  induction l generalizing a with
  | nil => simp
  | cons x t ih =>
    rw [List.foldl_cons]
    rcases List.mem_cons.mp (ih (min a x)) with h1 | h1
    · rw [h1]
      rcases min_choice a x with hm | hm <;> simp [hm]
    · simp [h1]

theorem foldl_min_le (a : ℚ) (l : List ℚ) : ∀ x ∈ a :: l, l.foldl min a ≤ x := by
  induction l generalizing a with
  | nil =>
    intro x hx
    rcases List.mem_singleton.mp hx with rfl
    simp
  | cons y t ih =>
    intro x hx
    rw [List.foldl_cons]
    rcases List.mem_cons.mp hx with rfl | hx2
    · exact le_trans (ih (min x y) _ (List.mem_cons_self _ _)) (min_le_left x y)
    · rcases List.mem_cons.mp hx2 with rfl | hx3
      · exact le_trans (ih (min a x) _ (List.mem_cons_self _ _)) (min_le_right a x)
      · exact ih (min a y) x (List.mem_cons_of_mem _ hx3)

theorem mem_groupTicks (len b : Nat) (rows : List TickRow) (t : TickRow) :
    t ∈ groupTicks len b rows ↔ t ∈ rows ∧ bucketOf len t.ts = b := by
  simp [groupTicks, List.mem_filter]

theorem mkBar_ts (b : Nat) (g : List TickRow) (bar : OHLCBar)
    (h : mkBar b g = some bar) : bar.ts = b := by
  unfold mkBar at h
  cases hp : g.map TickRow.price with
  | nil =>
    rw [hp] at h
    simp [ohlcOf] at h
  | cons p ps =>
    rw [hp] at h
    simp only [ohlcOf, Option.map_some'] at h
    rw [← Option.some.inj h]

theorem mkBar_ne_nil (b : Nat) (g : List TickRow) (bar : OHLCBar)
    (h : mkBar b g = some bar) : g ≠ [] := by
  intro hg
  rw [hg] at h
  simp [mkBar, ohlcOf] at h

theorem mkBar_isSome (b : Nat) (g : List TickRow) (h : g ≠ []) :
    (mkBar b g).isSome := by
  cases hg : g with
  | nil => exact absurd hg h
  | cons t ts =>
    simp [mkBar, ohlcOf]

theorem mkBar_fields (b : Nat) (g : List TickRow) (bar : OHLCBar)
    (h : mkBar b g = some bar) :
    bar.o = (g.map TickRow.price).headD 0 ∧
    bar.c = (g.map TickRow.price).getLastD 0 ∧
    bar.hi ∈ g.map TickRow.price ∧ (∀ p ∈ g.map TickRow.price, p ≤ bar.hi) ∧
    bar.lo ∈ g.map TickRow.price ∧ (∀ p ∈ g.map TickRow.price, bar.lo ≤ p) ∧
    bar.v = (g.map TickRow.size).sum := by
  unfold mkBar at h
  cases hp : g.map TickRow.price with
  | nil =>
    rw [hp] at h
    simp [ohlcOf] at h
  | cons p ps =>
    rw [hp] at h
    simp only [ohlcOf, Option.map_some'] at h
    have hbar := (Option.some.inj h).symm
    subst hbar
    refine ⟨rfl, ?_, ?_, ?_, ?_, ?_, rfl⟩
    · exact (getLastD_irrel (p :: ps) p 0 (by simp)).symm ▸ rfl
    · exact foldl_max_mem p ps
    · exact le_foldl_max p ps
    · exact foldl_min_mem p ps
    · exact foldl_min_le p ps

/-! ### C2 — spread alignment direction and hedge-ratio handling -/

/-- C2 counterexample: with `df1 = [(t=0, 10), (t=5, 20)]`,
`df2 = [(t=3, 100)]` and a supplied hedge ratio of `0`, the code pairs
each row of series A (`df1`) with the most recent row of series B and
ignores the falsy hedge ratio, yielding `[none, some 80]`, while the
claimed behaviour (pair each row of series B with the most recent row of
series A at or before it, spread `priceB - 0 * priceA`) yields
`[some 100]`.  The claim, as stated, is false on this input. -/
theorem compute_spread_c2_counterexample :
    compute_spread [⟨0, 10⟩, ⟨5, 20⟩] [⟨3, 100⟩] (some 0) ≠
      compute_spread_claimed [⟨0, 10⟩, ⟨5, 20⟩] [⟨3, 100⟩] (some 0) := by
  have hguard : ¬(([⟨0, 10⟩, ⟨5, 20⟩] : List PriceRow) = [] ∨
      ([⟨3, 100⟩] : List PriceRow) = []) := by simp
  have hcode : compute_spread [⟨0, 10⟩, ⟨5, 20⟩] [⟨3, 100⟩] (some 0) =
      [none, some 80] := by
    unfold compute_spread
    rw [if_neg hguard]
    norm_num [sortOn, asofPrice]
  have hclaim : compute_spread_claimed [⟨0, 10⟩, ⟨5, 20⟩] [⟨3, 100⟩] (some 0) =
      [some 100] := by
    unfold compute_spread_claimed
    rw [if_neg hguard]
    norm_num [sortOn, asofPrice]
  rw [hcode, hclaim]
  simp

/-- C2 amended: for non-empty inputs, `compute_spread` pairs each row of
series A (`df1`) with the most recent row of series B (`df2`) at or
before its timestamp and returns `priceB - hedge * priceA` per row of
series A (undefined where no B row exists at or before it), treating the
hedge ratio as `1` whenever it is not supplied or equals `0`. -/
theorem compute_spread_c2 (df1 df2 : List PriceRow) (hedge : Option ℚ)
    (h1 : df1 ≠ []) (h2 : df2 ≠ []) :
    compute_spread df1 df2 hedge = compute_spread_amended df1 df2 hedge := by
  have hcond : ¬(df1 = [] ∨ df2 = []) := by tauto
  simp only [compute_spread, compute_spread_amended, if_neg hcond]
  rcases hedge with _ | h
  · congr 1
    funext r
    cases asofPrice r.ts (sortOn PriceRow.ts df2) <;> simp
  · by_cases hz : h = 0
    · subst hz
      congr 1
      funext r
      cases asofPrice r.ts (sortOn PriceRow.ts df2) <;> simp
    · congr 1
      funext r
      cases asofPrice r.ts (sortOn PriceRow.ts df2) <;> simp [hz]

/-- Witness for C2 (amended) at concrete one-row inputs. -/
theorem compute_spread_c2_witness :
    compute_spread [⟨0, 10⟩] [⟨0, 11⟩] none =
      compute_spread_amended [⟨0, 10⟩] [⟨0, 11⟩] none :=
  compute_spread_c2 [⟨0, 10⟩] [⟨0, 11⟩] none (by simp) (by simp)

/-! ### Helper lemmas for the rolling z-score -/

theorem listMean_replicate (n : Nat) (c : ℚ) (hn : n ≠ 0) :
    listMean (List.replicate n c) = c := by
  have hcast : (n : ℚ) ≠ 0 := Nat.cast_ne_zero.mpr hn
  simp only [listMean, List.sum_replicate, List.length_replicate, nsmul_eq_mul]
  rw [mul_comm, mul_div_assoc, div_self hcast, mul_one]

theorem sampleVar_replicate (k : Nat) (c : ℚ) :
    sampleVar (List.replicate k c) = 0 := by
  cases k with
  | zero => simp [sampleVar, listMean]
  | succ n =>
    have hm := listMean_replicate (n + 1) c (Nat.succ_ne_zero n)
    simp [sampleVar, hm, List.map_replicate, List.sum_replicate]

theorem compute_zscore_getD (sqrtQ : ℚ → ℚ) (window : Nat) (series : List ℚ)
    (i : Nat) (hi : i < series.length) :
    (compute_zscore sqrtQ window series).getD i (some 0) =
      match rollingWindow window series i with
      | none => none
      | some ws =>
        if ws.length < 2 then none
        else
          if sqrtQ (sampleVar ws) = 0 then none
          else some ((series.getD i 0 - listMean ws) / sqrtQ (sampleVar ws)) := by
  have hne : series ≠ [] := by
    intro h
    rw [h] at hi
    simp at hi
  unfold compute_zscore
  rw [if_neg hne]
  rw [List.getD_eq_getElem?_getD, List.getElem?_map, List.getElem?_range hi]
  rfl

/-! ### C8 — rolling z-score never faults -/

/-- C8: `compute_zscore` is a total function of its inputs — in
particular it never faults with a division-by-zero error.  It preserves
the series length, returns `none` (undefined/NaN) at every position where
the rolling standard deviation is exactly zero, returns
`(value - rolling_mean) / rolling_std` at every full-window position with
nonzero standard deviation, and on a constant series returns `none` at
every position.  `sqrtQ` models the square root inside `.std()`; the
hypothesis pins down its zero set (the square root of a nonnegative
number is zero exactly when the number is). -/
theorem compute_zscore_c8 (sqrtQ : ℚ → ℚ) (window : Nat) (series : List ℚ)
    (hsqrt : ∀ q, sqrtQ q = 0 ↔ q = 0) (hw : 1 ≤ window) :
    (compute_zscore sqrtQ window series).length = series.length ∧
    (∀ i, i < series.length → ∀ ws, rollingWindow window series i = some ws →
        sampleVar ws = 0 →
        (compute_zscore sqrtQ window series).getD i (some 0) = none) ∧
    (∀ i, i < series.length → ∀ ws, rollingWindow window series i = some ws →
        2 ≤ ws.length → sampleVar ws ≠ 0 →
        (compute_zscore sqrtQ window series).getD i (some 0) =
          some ((series.getD i 0 - listMean ws) / sqrtQ (sampleVar ws))) ∧
    (∀ c : ℚ, series = List.replicate series.length c →
        ∀ i, i < series.length →
          (compute_zscore sqrtQ window series).getD i (some 0) = none) := by
  refine ⟨?_, ?_, ?_, ?_⟩
  · by_cases hne : series = [] <;> simp [compute_zscore, hne]
  · intro i hi ws hws hvar
    rw [compute_zscore_getD sqrtQ window series i hi, hws]
    by_cases hl : ws.length < 2
    · simp [hl]
    · simp [hl, (hsqrt _).mpr hvar]
  · intro i hi ws hws hl hvar
    have hsd : sqrtQ (sampleVar ws) ≠ 0 := fun hcon => hvar ((hsqrt _).mp hcon)
    rw [compute_zscore_getD sqrtQ window series i hi, hws]
    simp [Nat.not_lt.mpr hl, hsd]
  · intro c hrep i hi
    rw [compute_zscore_getD sqrtQ window series i hi]
    cases hwin : rollingWindow window series i with
    | none => rfl
    | some ws =>
      have hwsrep : ∃ k, ws = List.replicate k c := by
        unfold rollingWindow at hwin
        by_cases hwle : window ≤ i + 1
        · rw [if_pos hwle] at hwin
          rw [hrep, List.take_replicate, List.drop_replicate] at hwin
          exact ⟨_, (Option.some.inj hwin).symm⟩
        · rw [if_neg hwle] at hwin
          exact absurd hwin (by simp)
      obtain ⟨k, hk⟩ := hwsrep
      by_cases hl : ws.length < 2
      · simp [hl]
      · have hv0 : sampleVar ws = 0 := by rw [hk]; exact sampleVar_replicate k c
        simp [hl, (hsqrt _).mpr hv0]

/-- Witness for C8 at the constant series `[1, 1, 1]` with window 2 and
the identity as the (zero-set-faithful) square-root model: the z-score is
undefined at position 2. -/
theorem compute_zscore_c8_witness :
    (compute_zscore (fun q => q) 2 [1, 1, 1]).getD 2 (some 0) = none :=
  (compute_zscore_c8 (fun q => q) 2 [1, 1, 1] (fun _ => Iff.rfl)
      (by norm_num)).2.2.2 1 rfl 2 (by norm_num)

/-! ### C7 — ADF test gating and verdict -/

/-- C7: `compute_adf_test` returns an error-marker result — never an
exception and never a numeric payload — whenever fewer than 10 valid
observations remain after dropping missing values, and otherwise returns
the statistic, p-value, critical values, lag count and observation count
of the test routine, with the stationarity verdict true exactly when the
p-value is below 0.05. -/
theorem compute_adf_test_c7 (adfuller : List ℚ → ADFRaw)
    (series : List (Option ℚ)) :
    ((series.filterMap id).length < 10 →
        ∃ msg, compute_adf_test adfuller series = ADFResult.err msg) ∧
    (10 ≤ (series.filterMap id).length →
        compute_adf_test adfuller series =
          ADFResult.ok (adfuller (series.filterMap id)).stat
            (adfuller (series.filterMap id)).pvalue
            (adfuller (series.filterMap id)).crit
            (adfuller (series.filterMap id)).usedlag
            (adfuller (series.filterMap id)).nobs
            (decide ((adfuller (series.filterMap id)).pvalue < 5 / 100))) := by
  have hle : (series.filterMap id).length ≤ series.length :=
    List.length_filterMap_le id series
  constructor
  · intro hclean
    by_cases hshort : series = [] ∨ series.length < 10
    · exact ⟨"Insufficient data for ADF test", by simp [compute_adf_test, hshort]⟩
    · refine ⟨"Insufficient valid data", ?_⟩
      simp only [compute_adf_test, if_neg hshort]
      simp [hclean]
  · intro hclean
    have hne : ¬(series = [] ∨ series.length < 10) := by
      rintro (h | h)
      · rw [h] at hclean
        simp at hclean
      · omega
    simp only [compute_adf_test, if_neg hne]
    simp [Nat.not_lt.mpr hclean]

/-- Witness for C7 at a concrete oracle and a series of 12 valid
observations with p-value 0.01: a full numeric result with a positive
stationarity verdict. -/
theorem compute_adf_test_c7_witness :
    compute_adf_test (fun _ => ⟨1, 1 / 100, 2, 12, []⟩)
        (List.replicate 12 (some (1 : ℚ))) =
      ADFResult.ok 1 (1 / 100) [] 2 12 true :=
  ((compute_adf_test_c7 (fun _ => ⟨1, 1 / 100, 2, 12, []⟩)
      (List.replicate 12 (some (1 : ℚ)))).2 (by simp)).trans (by norm_num)

/-! ### C6 — resampling to OHLC bars -/

/-- C6: for every non-empty tick DataFrame and timeframe among
`1s`/`1m`/`5m`, `resample_data` buckets the ticks into non-overlapping
intervals of the timeframe length aligned to the timeframe boundary (each
tick lies in exactly the aligned bucket containing its timestamp), emits
exactly one bar per non-empty bucket and no bar for an empty bucket, and
each emitted bar has open = the first price of its bucket in timestamp
order, close = the last, high/low = the extrema, and volume = the sum of
sizes. -/
theorem resample_data_c6 (df : List TickRow) (timeframe : String)
    (htf : timeframe = "1s" ∨ timeframe = "1m" ∨ timeframe = "5m")
    (hne : df ≠ []) :
    (0 < freqOf timeframe ∧ ∀ t ∈ df,
        freqOf timeframe ∣ bucketOf (freqOf timeframe) t.ts ∧
        bucketOf (freqOf timeframe) t.ts ≤ t.ts ∧
        t.ts < bucketOf (freqOf timeframe) t.ts + freqOf timeframe) ∧
    (∀ b : Nat, (∃ t ∈ df, bucketOf (freqOf timeframe) t.ts = b) →
        (resample_data df timeframe).countP (fun bar => bar.ts == b) = 1) ∧
    (∀ bar ∈ resample_data df timeframe,
        ∃ t ∈ df, bucketOf (freqOf timeframe) t.ts = bar.ts) ∧
    (∀ bar ∈ resample_data df timeframe,
        groupTicks (freqOf timeframe) bar.ts (sortOn TickRow.ts df) ≠ [] ∧
        bar.o = ((groupTicks (freqOf timeframe) bar.ts
            (sortOn TickRow.ts df)).map TickRow.price).headD 0 ∧
        bar.c = ((groupTicks (freqOf timeframe) bar.ts
            (sortOn TickRow.ts df)).map TickRow.price).getLastD 0 ∧
        bar.hi ∈ (groupTicks (freqOf timeframe) bar.ts
            (sortOn TickRow.ts df)).map TickRow.price ∧
        (∀ p ∈ (groupTicks (freqOf timeframe) bar.ts
            (sortOn TickRow.ts df)).map TickRow.price, p ≤ bar.hi) ∧
        bar.lo ∈ (groupTicks (freqOf timeframe) bar.ts
            (sortOn TickRow.ts df)).map TickRow.price ∧
        (∀ p ∈ (groupTicks (freqOf timeframe) bar.ts
            (sortOn TickRow.ts df)).map TickRow.price, bar.lo ≤ p) ∧
        bar.v = ((groupTicks (freqOf timeframe) bar.ts
            (sortOn TickRow.ts df)).map TickRow.size).sum) := by
  have hlen : 0 < freqOf timeframe := by
    rcases htf with h | h | h <;> subst h <;> decide
  obtain ⟨r0, rest, hrows⟩ : ∃ r0 rest, sortOn TickRow.ts df = r0 :: rest := by
    cases hs : sortOn TickRow.ts df with
    | nil => exact absurd ((sortOn_eq_nil_iff _ _).mp hs) hne
    | cons a t => exact ⟨a, t, rfl⟩
  have hmemiff : ∀ t : TickRow, t ∈ r0 :: rest ↔ t ∈ df := by
    intro t
    rw [← hrows]
    exact mem_sortOn _ _ _
  have hsorted : List.Sorted
      (fun a b : TickRow => TickRow.ts a ≤ TickRow.ts b) (r0 :: rest) := by
    rw [← hrows]
    exact sortOn_sorted _ _
  have hout : resample_data df timeframe =
      (bucketIndexList (freqOf timeframe) (bucketOf (freqOf timeframe) r0.ts)
          (bucketOf (freqOf timeframe) ((r0 :: rest).getLastD r0).ts)).filterMap
        (fun b => mkBar b (groupTicks (freqOf timeframe) b (r0 :: rest))) := by
    unfold resample_data
    rw [hrows]
  have hbound : ∀ t ∈ r0 :: rest,
      bucketOf (freqOf timeframe) r0.ts ≤ bucketOf (freqOf timeframe) t.ts ∧
      bucketOf (freqOf timeframe) t.ts ≤
        bucketOf (freqOf timeframe) ((r0 :: rest).getLastD r0).ts := by
    intro t ht
    constructor
    · exact bucketOf_mono _ (sorted_head_le TickRow.ts r0 rest hsorted t ht)
    · exact bucketOf_mono _
        (sorted_le_getLastD TickRow.ts (r0 :: rest) r0 hsorted t ht)
  refine ⟨⟨hlen, ?_⟩, ?_, ?_, ?_⟩
  · intro t _
    exact ⟨bucketOf_dvd _ _, bucketOf_le_self _ _, lt_bucketOf_add _ _ hlen⟩
  · rintro b ⟨t, htdf, htb⟩
    have ht : t ∈ r0 :: rest := (hmemiff t).mpr htdf
    have hb1 := (hbound t ht).1
    have hb2 := (hbound t ht).2
    rw [htb] at hb1 hb2
    have hbmem := mem_bucketIndexList (freqOf timeframe)
      (bucketOf (freqOf timeframe) r0.ts)
      (bucketOf (freqOf timeframe) ((r0 :: rest).getLastD r0).ts) b
      (bucketOf_dvd _ _) (htb ▸ bucketOf_dvd _ _) hb1 hb2
    have hg : t ∈ groupTicks (freqOf timeframe) b (r0 :: rest) :=
      (mem_groupTicks _ _ _ _).mpr ⟨ht, htb⟩
    have hsome : (mkBar b (groupTicks (freqOf timeframe) b (r0 :: rest))).isSome :=
      mkBar_isSome _ _ (List.ne_nil_of_mem hg)
    rw [hout]
    exact countP_filterMap_ts_one _ _ b (fun x bar h => mkBar_ts x _ bar h)
      (bucketIndexList_nodup _ _ _ hlen) hbmem hsome
  · intro bar hbar
    rw [hout] at hbar
    obtain ⟨b, hbm, hmk⟩ := List.mem_filterMap.mp hbar
    have hts := mkBar_ts b _ bar hmk
    have hgne := mkBar_ne_nil b _ bar hmk
    obtain ⟨t, htg⟩ := List.exists_mem_of_ne_nil _ hgne
    obtain ⟨ht, htb⟩ := (mem_groupTicks _ _ _ _).mp htg
    exact ⟨t, (hmemiff t).mp ht, by rw [htb, hts]⟩
  · intro bar hbar
    rw [hout] at hbar
    obtain ⟨b, hbm, hmk⟩ := List.mem_filterMap.mp hbar
    have hts := mkBar_ts b _ bar hmk
    have hgne := mkBar_ne_nil b _ bar hmk
    have hfields := mkBar_fields b _ bar hmk
    rw [hrows, hts]
    exact ⟨hgne, hfields⟩

/-- Witness for C6 at the end-to-end scenario: `btcusdt` ticks
`(t=0, 100, 1), (t=1s, 101, 2), (t=2s, 99, 1)` resampled to `1s` have
exactly one bar for the bucket starting at millisecond 1000. -/
theorem resample_data_c6_witness :
    (resample_data [⟨0, 100, 1⟩, ⟨1000, 101, 2⟩, ⟨2000, 99, 1⟩] "1s").countP
      (fun bar => bar.ts == 1000) = 1 :=
  (resample_data_c6 [⟨0, 100, 1⟩, ⟨1000, 101, 2⟩, ⟨2000, 99, 1⟩] "1s"
      (Or.inl rfl) (by simp)).2.1 1000 ⟨⟨1000, 101, 2⟩, by simp, by decide⟩

/-! ### C10 — unknown timeframe falls back to one minute -/

theorem resample_data_ne_nil (df : List TickRow) (timeframe : String)
    (hne : df ≠ []) : resample_data df timeframe ≠ [] := by
  obtain ⟨r0, rest, hrows⟩ : ∃ r0 rest, sortOn TickRow.ts df = r0 :: rest := by
    cases hs : sortOn TickRow.ts df with
    | nil => exact absurd ((sortOn_eq_nil_iff _ _).mp hs) hne
    | cons a t => exact ⟨a, t, rfl⟩
  have hout : resample_data df timeframe =
      (bucketIndexList (freqOf timeframe) (bucketOf (freqOf timeframe) r0.ts)
          (bucketOf (freqOf timeframe) ((r0 :: rest).getLastD r0).ts)).filterMap
        (fun b => mkBar b (groupTicks (freqOf timeframe) b (r0 :: rest))) := by
    unfold resample_data
    rw [hrows]
  rw [hout]
  have hr0g : r0 ∈ groupTicks (freqOf timeframe)
      (bucketOf (freqOf timeframe) r0.ts) (r0 :: rest) :=
    (mem_groupTicks _ _ _ _).mpr ⟨List.mem_cons_self _ _, rfl⟩
  have hsome := mkBar_isSome (bucketOf (freqOf timeframe) r0.ts) _
    (List.ne_nil_of_mem hr0g)
  obtain ⟨bar, hbar⟩ := Option.isSome_iff_exists.mp hsome
  exact List.ne_nil_of_mem (List.mem_filterMap.mpr
    ⟨bucketOf (freqOf timeframe) r0.ts, head_mem_bucketIndexList _ _ _, hbar⟩)

/-- C10: calling `resample_data` with any timeframe string outside
`{1s, 1m, 5m}` does not fail and does not return an empty result for a
non-empty input: the frequency lookup falls back to the one-minute
default, so the result is exactly that of timeframe `"1m"`. -/
theorem resample_data_c10 (df : List TickRow) (timeframe : String)
    (h1 : timeframe ≠ "1s") (h2 : timeframe ≠ "1m") (h3 : timeframe ≠ "5m")
    (hne : df ≠ []) :
    resample_data df timeframe = resample_data df "1m" ∧
      resample_data df timeframe ≠ [] := by
  have hfreq : freqOf timeframe = freqOf "1m" := by
    simp [freqOf, h1, h2, h3]
  have heq : resample_data df timeframe = resample_data df "1m" := by
    unfold resample_data
    rw [hfreq]
  refine ⟨heq, ?_⟩
  rw [heq]
  exact resample_data_ne_nil df "1m" hne

/-- Witness for C10 at the unknown timeframe `"2h"` and a one-tick
DataFrame. -/
theorem resample_data_c10_witness :
    resample_data [⟨0, 1, 1⟩] "2h" = resample_data [⟨0, 1, 1⟩] "1m" ∧
      resample_data [⟨0, 1, 1⟩] "2h" ≠ [] :=
  resample_data_c10 [⟨0, 1, 1⟩] "2h" (by decide) (by decide) (by decide)
    (by simp)
